import Mathlib

/-!
Shallow embedding of the `dnssec-ksr` tool (src/bin/dnssec/dnssec-ksr.c):
the `keygen` command (schedule planner, `create_zsk`) and the `request`
command (bundle emitter, `print_dnskey`).

Machine integers: `isc_stdtime_t` is an unsigned 32-bit count of seconds
since the epoch; it is modelled as `Nat` with explicit reduction modulo
`2^32` exactly where the C code performs 32-bit arithmetic.  A timing
field read through `dst_key_gettime` leaves its output variable at `0`
when the time is unset, so `0` doubles as "unset", as in the C code.
-/

namespace DnssecKsr

/-- 2^32, the modulus of `isc_stdtime_t` arithmetic. -/
def W : Nat := 4294967296

/-- Truncation to unsigned 32-bit, applied where C assigns a wider or
wrapped expression to an `isc_stdtime_t`. -/
def u32 (n : Nat) : Nat := n % W

/-- Unsigned 32-bit addition (wrapping), as in `inception += ksr->lifetime`. -/
def u32add (a b : Nat) : Nat := u32 (a + b)

/-- Unsigned 32-bit subtraction (wrapping), as in `active - prepub`. -/
def u32sub (a b : Nat) : Nat := u32 (a + W - u32 b)

/-- One materialized key as the tool sees it: role flags, algorithm and
the timing fields read via `dst_key_gettime` (0 = unset), plus the key
tag used for inventory ordering. -/
structure KeyRecord where
  tag : Nat
  alg : Nat
  ksk : Bool
  zsk : Bool
  created : Nat
  publish : Nat
  activate : Nat
  inactive : Nat
  delete : Nat
deriving DecidableEq, Repr

/-- One `dns_kasp_key_t` policy entry: role flags, algorithm, size and
lifetime, as read by `keygen` via the `dns_kasp_key_*` accessors. -/
structure KaspKey where
  alg : Nat
  ksk : Bool
  zsk : Bool
  size : Nat
  lifetime : Nat
deriving DecidableEq, Repr

/-- The policy (`dns_kasp_t`) projection the tool reads: the ordered key
entry list and the zone-wide timing durations used by `setcontext`. -/
structure Kasp where
  keys : List KaspKey
  dnskeyttl : Nat
  propagation : Nat
  publishsafety : Nat
  retiresafety : Nat
  signdelay : Nat
  zonemaxttl : Nat
deriving DecidableEq, Repr

/-- Modelled from the spec: `dns_kasp_key_match` lives in
`lib/dns/kasp.c`, which is not part of this repository snapshot.  Per
section 4.2 the predicate is true when the algorithm is equal and the
`(is_ksk, is_zsk)` role pair equals the policy entry's role. -/
def dns_kasp_key_match (kk : KaspKey) (dk : KeyRecord) : Bool :=
  kk.alg == dk.alg && kk.ksk == dk.ksk && kk.zsk == dk.zsk

/-! ### Bundle emitter (`request` command, `print_dnskey`) -/

/-- One conditional lowering of the next-bundle minimum: take `c` when
it is set (`0 < c`), after the inception, and below the running
minimum `nb` (the shape of each `if` at lines 480-485). -/
def lowerTo (inception c nb : Nat) : Nat :=
  if 0 < c ∧ inception < c ∧ c < nb then c else nb

/-- The "determine next bundle" update performed for every inventory
record in `print_dnskey` (lines 479-485): lower `nb` to `publish` and
then to `delete`. -/
def nextStep (inception nb : Nat) (dk : KeyRecord) : Nat :=
  lowerTo inception dk.delete (lowerTo inception dk.publish nb)

/-- The next-bundle minimum accumulated over the whole inventory. -/
def scanNext (inception : Nat) (keys : List KeyRecord) (nb : Nat) : Nat :=
  keys.foldl (nextStep inception) nb

/-- A record passes the emitter's per-bundle filter in `print_dnskey`
(lines 487-495): it matches the entry, its publish time is not after
the inception, and its delete time is unset or after the inception. -/
def printableB (kk : KaspKey) (inception : Nat) (dk : KeyRecord) : Bool :=
  dns_kasp_key_match kk dk && decide (dk.publish ≤ inception) &&
    (decide (dk.delete = 0) || decide (inception < dk.delete))

/-- One step of the `print_dnskey` loop body: update the next-bundle
minimum for every record, and append the record to the emitted list when
it passes the filter. -/
def pdStep (kk : KaspKey) (inception : Nat)
    (acc : List KeyRecord × Nat) (dk : KeyRecord) : List KeyRecord × Nat :=
  let nb := nextStep inception acc.2 dk
  if printableB kk inception dk then (acc.1 ++ [dk], nb) else (acc.1, nb)

/-- The body of `print_dnskey`: walk the inventory, emit every matching
record visible at `inception`, and return the emitted records together
with the updated next-bundle time.  `none` models the fatal
"no key pair found for bundle" error when nothing was emitted. -/
def print_dnskey (kk : KaspKey) (keys : List KeyRecord)
    (inception nextInception : Nat) : Option (List KeyRecord × Nat) :=
  let res := keys.foldl (pdStep kk inception) ([], nextInception)
  if res.1 = [] then none else some res

/-- The per-bundle loop over the policy entries in `request`
(lines 621-634): call `print_dnskey` for each entry in policy order,
threading the next-bundle time through; any entry-level fatal aborts. -/
def bundleEntries (keys : List KeyRecord) (inception : Nat) :
    List KaspKey → Nat → Option (List KeyRecord × Nat)
  | [], nb => some ([], nb)
  | kk :: rest, nb =>
    match print_dnskey kk keys inception nb with
    | none => none
    | some (recs, nb2) =>
      match bundleEntries keys inception rest nb2 with
      | none => none
      | some (more, nb3) => some (recs ++ more, nb3)

/-- Outcome of a `request` run.  Every constructor that can occur after
bundles were already written to stdout carries those bundles.
`outOfFuel` marks that the given iteration budget was exhausted before
the loop exited on its own. -/
inductive ReqRes where
  | bundles (bs : List (Nat × List KeyRecord))
  | noKeysConfigured
  | fatalNoKeyPair (bs : List (Nat × List KeyRecord))
  | outOfFuel (bs : List (Nat × List KeyRecord))
deriving DecidableEq, Repr

/-- The bundle loop of `request` (lines 600-636): while
`inception ≤ end`, emit a bundle, initialize `next` to the 32-bit value
of `end + 1`, scan all entries, and advance `inception` to `next`. -/
def requestLoop (ks : List KaspKey) (keys : List KeyRecord) (endt : Nat) :
    Nat → Nat → ReqRes
  | 0, _ => .outOfFuel []
  | fuel + 1, inception =>
    if inception ≤ endt then
      match bundleEntries keys inception ks (u32 (endt + 1)) with
      | none => .fatalNoKeyPair []
      | some (recs, next) =>
        match requestLoop ks keys endt fuel next with
        | .bundles bs => .bundles ((inception, recs) :: bs)
        | .fatalNoKeyPair bs => .fatalNoKeyPair ((inception, recs) :: bs)
        | .outOfFuel bs => .outOfFuel ((inception, recs) :: bs)
        | .noKeysConfigured => .noKeysConfigured
    else .bundles []

/-- The `request` command: `getkasp` fatals when the policy has no key
entries; otherwise run the bundle loop from `start`. -/
def request (fuel : Nat) (k : Kasp) (keys : List KeyRecord)
    (start endt : Nat) : ReqRes :=
  if k.keys = [] then .noKeysConfigured
  else requestLoop k.keys keys endt fuel start

/-! ### Schedule planner (`keygen` command, `create_zsk`) -/

/-- The RSA minimum key size set up by `main` (lines 75 and 723-725):
1024 for backwards compatibility, raised to 2048 when FIPS mode is
already active right after `dst_lib_init`. -/
def min_rsa (fipsAtInit : Bool) : Nat := if fipsAtInit then 2048 else 1024

/-- Largest accepted RSA modulus size (`MAX_RSA` in dnssectool.h). -/
def MAX_RSA : Nat := 4096

/-- Result of the algorithm and size validation at the top of
`create_zsk` (lines 266-303). -/
inductive AlgCheck where
  | ok (size : Nat)
  | fatalUnsupported
  | fatalSize
deriving DecidableEq, Repr

/-- An RSA variant for the size check: the `switch` cases
`DST_ALG_RSASHA1` (5), `DST_ALG_NSEC3RSASHA1` (7), falling through to
`DST_ALG_RSASHA256` (8) and `DST_ALG_RSASHA512` (10). -/
def isRsa (alg : Nat) : Bool :=
  alg == 5 || alg == 7 || alg == 8 || alg == 10

/-- The algorithm and size validation of `create_zsk`: unsupported
algorithms are fatal; RSASHA1 variants are fatal under FIPS; a nonzero
RSA size outside `[min_rsa, MAX_RSA]` is fatal; elliptic- and
Edwards-curve algorithms override the size (13 → 256, 14 → 384,
15 → 256, 16 → 456); anything else keeps the policy size. -/
def checkAlg (supported fips : Bool) (minRsa alg size : Nat) : AlgCheck :=
  if supported = false then .fatalUnsupported
  else if (alg = 5 ∨ alg = 7) ∧ fips = true then .fatalUnsupported
  else if isRsa alg ∧ size ≠ 0 ∧ (size < minRsa ∨ MAX_RSA < size) then .fatalSize
  else if alg = 13 then .ok 256
  else if alg = 14 then .ok 384
  else if alg = 15 then .ok 256
  else if alg = 16 then .ok 456
  else .ok size

/-- The mutable `ksr_ctx` fields the planner reads: the current time,
the interval, the timing durations copied by `setcontext`, and the
per-entry algorithm, size and lifetime copied by the `keygen` loop. -/
structure KsrCtx where
  now : Nat
  start : Nat
  endt : Nat
  ttl : Nat
  propagation : Nat
  publishsafety : Nat
  retiresafety : Nat
  signdelay : Nat
  ttlsig : Nat
  alg : Nat
  size : Nat
  lifetime : Nat
deriving DecidableEq, Repr

/-- `setcontext` (lines 204-212): copy the policy's timing durations
into the context.  The per-entry fields start at zero. -/
def setcontext (k : Kasp) (now start endt : Nat) : KsrCtx :=
  { now := now, start := start, endt := endt,
    ttl := k.dnskeyttl, propagation := k.propagation,
    publishsafety := k.publishsafety, retiresafety := k.retiresafety,
    signdelay := k.signdelay, ttlsig := k.zonemaxttl,
    alg := 0, size := 0, lifetime := 0 }

/-- The per-entry assignments at the top of the `keygen` loop
(lines 561-564): copy algorithm, lifetime and size from the entry. -/
def setentry (c : KsrCtx) (kk : KaspKey) : KsrCtx :=
  { c with alg := kk.alg, size := kk.size, lifetime := kk.lifetime }

/-- The existing-key scan of `create_zsk` (lines 307-342): the first
inventory record that matches the entry, has `activate ≤ inception`,
and whose `inactive` is unset or after the inception. -/
def findEligible (kk : KaspKey) (inception : Nat) :
    List KeyRecord → Option KeyRecord
  | [] => none
  | dk :: rest =>
    if dns_kasp_key_match kk dk = true ∧ dk.activate ≤ inception ∧
        (dk.inactive = 0 ∨ inception < dk.inactive)
    then some dk
    else findEligible kk inception rest

/-- The timing metadata stamped on a freshly generated key
(lines 397-415): `created = now`, `publish = active - prepub`,
`activate = active`, and when the lifetime is positive
`inactive = active + lifetime` and `delete = inactive + remove`,
with `prepub = ttl + publishsafety + propagation` and
`remove = ttlsig + propagation + retiresafety + signdelay`.
All arithmetic is unsigned 32-bit. -/
def stampTimes (c : KsrCtx) (tag active : Nat) : KeyRecord :=
  let prepub := u32 (c.ttl + c.publishsafety + c.propagation)
  let inact := u32 (active + c.lifetime)
  let remove := u32 (c.ttlsig + c.propagation + c.retiresafety + c.signdelay)
  { tag := tag, alg := c.alg, ksk := false, zsk := true,
    created := c.now,
    publish := u32sub active prepub,
    activate := active,
    inactive := if 0 < c.lifetime then inact else 0,
    delete := if 0 < c.lifetime then u32add inact remove else 0 }

/-- Result of one `create_zsk` call.  `reused` is the early-return path
through the existing-key scan: no key is generated and nothing is
written to disk.  `generated` is the only path that invokes the key
generator and persists the three key files (`dst_key_tofile`); the
collision-retry loop only discards externally generated candidates and
always ends with exactly one fresh key, abstracted here by `tag`.
Both carry the `*expiration` output parameter. -/
inductive CreateResult where
  | fatalUnsupported
  | fatalSize
  | reused (r : KeyRecord) (expiration : Nat)
  | generated (r : KeyRecord) (expiration : Nat)
deriving DecidableEq, Repr

/-- `create_zsk` (lines 248-437): validate the algorithm and size,
reuse the first eligible matching inventory record (expiration = its
inactive time, 0 when unset), else generate and stamp a fresh key
(expiration = its inactive time when the lifetime is positive, else 0). -/
def create_zsk (supported fips : Bool) (minRsa : Nat) (c : KsrCtx)
    (kk : KaspKey) (keys : List KeyRecord) (tag inception active : Nat) :
    CreateResult :=
  match checkAlg supported fips minRsa c.alg c.size with
  | .fatalUnsupported => .fatalUnsupported
  | .fatalSize => .fatalSize
  | .ok _ =>
    match findEligible kk inception keys with
    | some dk => .reused dk dk.inactive
    | none =>
      let r := stampTimes c tag active
      .generated r (if 0 < c.lifetime then u32 (active + c.lifetime) else 0)

/-- One filename emitted on stdout by `create_zsk`, tagged with whether
the key was reused from the inventory or newly generated. -/
inductive GenRes where
  | reusedKey (r : KeyRecord)
  | newKey (r : KeyRecord)
deriving DecidableEq, Repr

/-- The key record behind an emitted filename. -/
def GenRes.record : GenRes → KeyRecord
  | .reusedKey r => r
  | .newKey r => r

/-- Outcome of the per-entry generation walk. -/
inductive WalkRes where
  | ok (out : List GenRes)
  | fatalUnsupported (out : List GenRes)
  | fatalSize (out : List GenRes)
  | outOfFuel (out : List GenRes)
deriving DecidableEq, Repr

/-- Prepend an emitted key to a walk outcome. -/
def consWalk (g : GenRes) : WalkRes → WalkRes
  | .ok out => .ok (g :: out)
  | .fatalUnsupported out => .fatalUnsupported (g :: out)
  | .fatalSize out => .fatalSize (g :: out)
  | .outOfFuel out => .outOfFuel (g :: out)

/-- The per-entry walk of `keygen` (lines 567-575):
`for (inception = start, act = start; inception < end;
inception += lifetime)` call `create_zsk`, then break when the lifetime
is zero.  `act` is the in/out `*expiration` parameter, `idx` indexes
the stream of fresh keys delivered by the external generator
(abstracted by `tagOf`). -/
def zskWalk (supported fips : Bool) (minRsa : Nat) (c : KsrCtx)
    (kk : KaspKey) (keys : List KeyRecord) (tagOf : Nat → Nat) :
    Nat → Nat → Nat → Nat → WalkRes
  | 0, _, _, _ => .outOfFuel []
  | fuel + 1, inception, act, idx =>
    if inception < c.endt then
      match create_zsk supported fips minRsa c kk keys (tagOf idx) inception act with
      | .fatalUnsupported => .fatalUnsupported []
      | .fatalSize => .fatalSize []
      | .reused r exp =>
        if c.lifetime = 0 then .ok [.reusedKey r]
        else consWalk (.reusedKey r)
          (zskWalk supported fips minRsa c kk keys tagOf fuel
            (u32add inception c.lifetime) exp idx)
      | .generated r exp =>
        if c.lifetime = 0 then .ok [.newKey r]
        else consWalk (.newKey r)
          (zskWalk supported fips minRsa c kk keys tagOf fuel
            (u32add inception c.lifetime) exp (idx + 1))
    else .ok []

/-- Outcome of a `keygen` run.  `noKeysConfigured` is the `getkasp`
fatal for an empty policy; `noZsks` is the end-of-run
"policy has no zsks" fatal; the other fatal constructors carry the
filenames already written to stdout. -/
inductive KeygenRes where
  | ok (out : List GenRes)
  | noKeysConfigured
  | noZsks (out : List GenRes)
  | fatalUnsupported (out : List GenRes)
  | fatalSize (out : List GenRes)
  | outOfFuel (out : List GenRes)
deriving DecidableEq, Repr

/-- Prepend already-emitted filenames to a `keygen` outcome. -/
def prependKg (out : List GenRes) : KeygenRes → KeygenRes
  | .ok o => .ok (out ++ o)
  | .noKeysConfigured => .noKeysConfigured
  | .noZsks o => .noZsks (out ++ o)
  | .fatalUnsupported o => .fatalUnsupported (out ++ o)
  | .fatalSize o => .fatalSize (out ++ o)
  | .outOfFuel o => .outOfFuel (out ++ o)

/-- The entry loop of `keygen` (lines 554-579): skip KSK-bearing
entries, walk every other entry from `start`, and track in `noop`
whether any entry was scheduled at all. -/
def keygenEntries (supported fips : Bool) (minRsa fuel : Nat)
    (c0 : KsrCtx) (keys : List KeyRecord) (tagOf : Nat → Nat) :
    List KaspKey → Bool → KeygenRes
  | [], noop => if noop then .noZsks [] else .ok []
  | kk :: rest, noop =>
    if kk.ksk then
      keygenEntries supported fips minRsa fuel c0 keys tagOf rest noop
    else
      match zskWalk supported fips minRsa (setentry c0 kk) kk keys tagOf
          fuel c0.start c0.start 0 with
      | .ok out =>
        prependKg out
          (keygenEntries supported fips minRsa fuel c0 keys tagOf rest false)
      | .fatalUnsupported out => .fatalUnsupported out
      | .fatalSize out => .fatalSize out
      | .outOfFuel out => .outOfFuel out

/-- The `keygen` command (lines 539-582): `getkasp` fatals when the
policy has no key entries; otherwise set the context and run the entry
loop; a run that scheduled nothing ends with the "policy has no zsks"
fatal. -/
def keygen (supported fips : Bool) (minRsa fuel : Nat) (k : Kasp)
    (keys : List KeyRecord) (tagOf : Nat → Nat) (now start endt : Nat) :
    KeygenRes :=
  if k.keys = [] then .noKeysConfigured
  else keygenEntries supported fips minRsa fuel
    (setcontext k now start endt) keys tagOf k.keys true

/-! ### Auxiliary definitions for the statements -/

/-- A value that one inventory record can lower the next-bundle minimum
to at inception `i`: a set publish or delete instant after `i`. -/
def isCand (i : Nat) (dk : KeyRecord) (c : Nat) : Prop :=
  (0 < dk.publish ∧ i < dk.publish ∧ c = dk.publish) ∨
    (0 < dk.delete ∧ i < dk.delete ∧ c = dk.delete)

/-- Instant `t` is a change point of the inventory: some record has it
as its publish or delete time. -/
def changePt (keys : List KeyRecord) (t : Nat) : Prop :=
  ∃ r ∈ keys, r.publish = t ∨ r.delete = t

/-- The bundles a `request` outcome wrote to stdout. -/
def reqBundles : ReqRes → List (Nat × List KeyRecord)
  | .bundles bs => bs
  | .fatalNoKeyPair bs => bs
  | .outOfFuel bs => bs
  | .noKeysConfigured => []

/-- Whether a `request` outcome ran out of iteration budget. -/
def isOutOfFuel : ReqRes → Bool
  | .outOfFuel _ => true
  | _ => false

/-- Strict increase of consecutive elements. -/
def strictIncrB : List Nat → Bool
  | a :: b :: rest => decide (a < b) && strictIncrB (b :: rest)
  | _ => true

/-! ### Concrete scenario S1/S2 (single ZSK entry, 30-day lifetime,
window 2024-01-01T00:00:00Z to 2024-04-01T00:00:00Z, with the timing
durations instantiated to dnskey-ttl 3600, propagation 3600,
publish-safety 3600, retire-safety 3600, sign-delay 0,
max-zone-ttl 43200, so prepub = 10800 and retire = 50400) -/

/-- The S1 policy entry: ECDSAP256SHA256 (13) ZSK with a 30-day
(2592000 s) lifetime. -/
def czsk : KaspKey :=
  { alg := 13, ksk := false, zsk := true, size := 0, lifetime := 2592000 }

/-- The S1 policy: one ZSK entry, concrete timing durations. -/
def s1kasp : Kasp :=
  { keys := [czsk],
    dnskeyttl := 3600, propagation := 3600, publishsafety := 3600,
    retiresafety := 3600, signdelay := 0, zonemaxttl := 43200 }

/-- 2024-01-01T00:00:00Z. -/
def s1start : Nat := 1704067200

/-- 2024-04-01T00:00:00Z. -/
def s1end : Nat := 1711929600

/-- The S1 `keygen` run over an empty key directory, fresh key tags
numbered in generation order. -/
def s1run : KeygenRes :=
  keygen true false 1024 6 s1kasp [] (fun n => n) 1704000000 s1start s1end

/-- The inventory left behind by S1 (sorted ascending by key tag, the
order `get_dnskeys` establishes). -/
def s1inv : List KeyRecord :=
  match s1run with
  | .ok out => out.map GenRes.record
  | _ => []

/-- The S2 run: `request` over S1's inventory with the same window. -/
def s2run : ReqRes := request 10 s1kasp s1inv s1start s1end

/-- The first S1 key: active 2024-01-01, publish minus prepub 10800,
inactive after the 30-day lifetime, delete retire 50400 later. -/
def s2k0 : KeyRecord :=
  { tag := 0, alg := 13, ksk := false, zsk := true, created := 1704000000,
    publish := 1704056400, activate := 1704067200,
    inactive := 1706659200, delete := 1706709600 }

/-- The second S1 key: active 2024-01-31. -/
def s2k1 : KeyRecord :=
  { tag := 1, alg := 13, ksk := false, zsk := true, created := 1704000000,
    publish := 1706648400, activate := 1706659200,
    inactive := 1709251200, delete := 1709301600 }

/-- The third S1 key: active 2024-03-01. -/
def s2k2 : KeyRecord :=
  { tag := 2, alg := 13, ksk := false, zsk := true, created := 1704000000,
    publish := 1709240400, activate := 1709251200,
    inactive := 1711843200, delete := 1711893600 }

/-- The fourth S1 key: active 2024-03-31 (the walk runs while
inception < end, and 2024-03-31 is still inside the 91-day window). -/
def s2k3 : KeyRecord :=
  { tag := 3, alg := 13, ksk := false, zsk := true, created := 1704000000,
    publish := 1711832400, activate := 1711843200,
    inactive := 1714435200, delete := 1714485600 }

/-- The bundles the S2 run emits: change points are the publish and
delete instants inside the window, and the prepublication bundles hold
two DNSKEY records. -/
def s2expected : List (Nat × List KeyRecord) :=
  [(1704067200, [s2k0]), (1706648400, [s2k0, s2k1]), (1706709600, [s2k1]),
   (1709240400, [s2k1, s2k2]), (1709301600, [s2k2]),
   (1711832400, [s2k2, s2k3]), (1711893600, [s2k3])]

/-! ### Concrete inputs for counterexamples and witnesses -/

/-- A matching record whose publish and delete times are unset: it is
visible to the emitter at every inception. -/
def rPub0 : KeyRecord :=
  { tag := 1, alg := 13, ksk := false, zsk := true, created := 0,
    publish := 0, activate := 0, inactive := 0, delete := 0 }

/-- A matching record published at 20 but activated only at 70. -/
def rAct70 : KeyRecord :=
  { tag := 1, alg := 13, ksk := false, zsk := true, created := 0,
    publish := 20, activate := 70, inactive := 0, delete := 0 }

/-- A record of a different algorithm (RSASHA256, 8) that matches no
entry of `s1kasp` but is published at instant 50. -/
def rOther : KeyRecord :=
  { tag := 2, alg := 8, ksk := false, zsk := true, created := 0,
    publish := 50, activate := 0, inactive := 0, delete := 0 }

/-- A ZSK policy entry with lifetime 0 (unlimited). -/
def czsk0 : KaspKey :=
  { alg := 13, ksk := false, zsk := true, size := 0, lifetime := 0 }

/-- A policy whose only entry is the unlimited-lifetime ZSK. -/
def c6kasp : Kasp :=
  { keys := [czsk0],
    dnskeyttl := 3600, propagation := 3600, publishsafety := 3600,
    retiresafety := 3600, signdelay := 0, zonemaxttl := 43200 }

/-- A CSK policy entry: both role flags set. -/
def ccsk : KaspKey :=
  { alg := 13, ksk := true, zsk := true, size := 0, lifetime := 0 }

/-- A policy whose only entry is a CSK. -/
def cskKasp : Kasp :=
  { keys := [ccsk],
    dnskeyttl := 3600, propagation := 3600, publishsafety := 3600,
    retiresafety := 3600, signdelay := 0, zonemaxttl := 43200 }

/-- The prepublication interval of section 4.4:
`dnskey_ttl + publish_safety + propagation`. -/
def prepubD (k : Kasp) : Nat := k.dnskeyttl + k.publishsafety + k.propagation

/-- The retirement tail of section 4.4:
`max_zone_ttl + propagation + retire_safety + sign_delay`. -/
def retireD (k : Kasp) : Nat :=
  k.zonemaxttl + k.propagation + k.retiresafety + k.signdelay

/-- A ZSK entry with a 10-second lifetime. -/
def wzsk10 : KaspKey :=
  { alg := 13, ksk := false, zsk := true, size := 0, lifetime := 10 }

/-- A small policy for witnesses: prepub 3, retire 5. -/
def wkasp : Kasp :=
  { keys := [wzsk10],
    dnskeyttl := 1, propagation := 1, publishsafety := 1,
    retiresafety := 1, signdelay := 1, zonemaxttl := 2 }

/-- The key `create_zsk` stamps for `wkasp`/`wzsk10` at now 7,
active 100: publish 100 - 3, inactive 100 + 10, delete 110 + 5. -/
def w5rec : KeyRecord :=
  { tag := 3, alg := 13, ksk := false, zsk := true, created := 7,
    publish := 97, activate := 100, inactive := 110, delete := 115 }

/-- An inventory record eligible at inception 50: active at 40,
inactive at 60. -/
def w7rec : KeyRecord :=
  { tag := 9, alg := 13, ksk := false, zsk := true, created := 0,
    publish := 0, activate := 40, inactive := 60, delete := 0 }

/-- An RSASHA256 entry with policy size 0 (algorithm default). -/
def rsaZsk : KaspKey :=
  { alg := 8, ksk := false, zsk := true, size := 0, lifetime := 0 }

/-- The planner context for `rsaZsk`. -/
def c8ctx : KsrCtx := setentry (setcontext wkasp 0 0 100) rsaZsk

/-- An RSASHA256 entry with size 1024 (below the FIPS minimum 2048). -/
def rsa1024 : KaspKey :=
  { alg := 8, ksk := false, zsk := true, size := 1024, lifetime := 0 }

/-- The planner context for `rsa1024`. -/
def c8ctx1024 : KsrCtx := setentry (setcontext wkasp 0 0 100) rsa1024

/-- An RSASHA1 (5) entry. -/
def rsaSha1 : KaspKey :=
  { alg := 5, ksk := false, zsk := true, size := 2048, lifetime := 0 }

/-- The planner context for `rsaSha1`. -/
def c8ctxSha1 : KsrCtx := setentry (setcontext wkasp 0 0 100) rsaSha1

/-! ### Arithmetic helper lemmas -/

theorem u32_eq_of_lt {n : Nat} (h : n < W) : u32 n = n :=
  Nat.mod_eq_of_lt h

theorem u32sub_eq {a b : Nat} (hba : b ≤ a) (haW : a < W) :
    u32sub a b = a - b := by
  have hbW : b < W := lt_of_le_of_lt hba haW
  unfold u32sub
  rw [u32_eq_of_lt hbW]
  have h : a + W - b = a - b + W := by omega
  unfold u32
  rw [h, Nat.add_mod_right, Nat.mod_eq_of_lt (by omega)]

theorem u32add_eq {a b : Nat} (h : a + b < W) : u32add a b = a + b :=
  Nat.mod_eq_of_lt h

/-! ### Next-bundle scan lemmas -/

theorem lowerTo_le (i c nb : Nat) : lowerTo i c nb ≤ nb := by
  unfold lowerTo
  split
  · next h => exact Nat.le_of_lt h.2.2
  · exact Nat.le_refl nb

theorem lowerTo_gt {i nb : Nat} (c : Nat) (h : i < nb) : i < lowerTo i c nb := by
  unfold lowerTo
  split
  · next hc => exact hc.2.1
  · exact h

theorem lowerTo_le_self {i c : Nat} (nb : Nat) (h : i < c) :
    lowerTo i c nb ≤ c := by
  unfold lowerTo
  split
  · exact Nat.le_refl c
  · next hn =>
    push_neg at hn
    exact hn (by omega) h

theorem lowerTo_mem (i c nb : Nat) :
    lowerTo i c nb = nb ∨ (0 < c ∧ i < c ∧ lowerTo i c nb = c) := by
  unfold lowerTo
  split
  · next h => exact Or.inr ⟨h.1, h.2.1, rfl⟩
  · exact Or.inl rfl

theorem nextStep_le (i nb : Nat) (dk : KeyRecord) : nextStep i nb dk ≤ nb :=
  le_trans (lowerTo_le i dk.delete _) (lowerTo_le i dk.publish nb)

theorem nextStep_gt {i nb : Nat} (dk : KeyRecord) (h : i < nb) :
    i < nextStep i nb dk :=
  lowerTo_gt dk.delete (lowerTo_gt dk.publish h)

theorem nextStep_le_cand {i nb c : Nat} {dk : KeyRecord}
    (h : isCand i dk c) : nextStep i nb dk ≤ c := by
  rcases h with ⟨_, hlt, hc⟩ | ⟨_, hlt, hc⟩
  · subst hc
    exact le_trans (lowerTo_le i dk.delete _) (lowerTo_le_self nb hlt)
  · subst hc
    exact lowerTo_le_self _ hlt

theorem nextStep_mem (i nb : Nat) (dk : KeyRecord) :
    nextStep i nb dk = nb ∨ isCand i dk (nextStep i nb dk) := by
  unfold nextStep
  rcases lowerTo_mem i dk.delete (lowerTo i dk.publish nb) with h | ⟨h1, h2, h3⟩
  · rw [h]
    rcases lowerTo_mem i dk.publish nb with h' | ⟨h1', h2', h3'⟩
    · exact Or.inl h'
    · exact Or.inr (Or.inl ⟨h1', h2', h3'⟩)
  · exact Or.inr (Or.inr ⟨h1, h2, h3⟩)

theorem scanNext_nil (i nb : Nat) : scanNext i [] nb = nb := rfl

theorem scanNext_cons (i nb : Nat) (dk : KeyRecord) (l : List KeyRecord) :
    scanNext i (dk :: l) nb = scanNext i l (nextStep i nb dk) := rfl

theorem scanNext_le (i : Nat) (l : List KeyRecord) (nb : Nat) :
    scanNext i l nb ≤ nb := by
  induction l generalizing nb with
  | nil => exact Nat.le_refl nb
  | cons dk rest ih =>
    rw [scanNext_cons]
    exact le_trans (ih (nextStep i nb dk)) (nextStep_le i nb dk)

theorem scanNext_gt {i nb : Nat} (l : List KeyRecord) (h : i < nb) :
    i < scanNext i l nb := by
  induction l generalizing nb with
  | nil => exact h
  | cons dk rest ih =>
    rw [scanNext_cons]
    exact ih (nextStep_gt dk h)

theorem scanNext_le_cand {i c : Nat} {dk : KeyRecord} {l : List KeyRecord}
    (hmem : dk ∈ l) (hc : isCand i dk c) (nb : Nat) :
    scanNext i l nb ≤ c := by
  induction l generalizing nb with
  | nil => cases hmem
  | cons hd rest ih =>
    rw [scanNext_cons]
    rcases List.mem_cons.mp hmem with heq | htl
    · subst heq
      exact le_trans (scanNext_le i rest _) (nextStep_le_cand hc)
    · exact ih htl _

theorem scanNext_mem (i : Nat) (l : List KeyRecord) (nb : Nat) :
    scanNext i l nb = nb ∨ ∃ dk ∈ l, isCand i dk (scanNext i l nb) := by
  induction l generalizing nb with
  | nil => exact Or.inl rfl
  | cons hd rest ih =>
    rw [scanNext_cons]
    rcases ih (nextStep i nb hd) with h | ⟨dk, hmem, hc⟩
    · rw [h]
      rcases nextStep_mem i nb hd with h' | h'
      · exact Or.inl h'
      · exact Or.inr ⟨hd, List.mem_cons_self hd rest, h'⟩
    · exact Or.inr ⟨dk, List.mem_cons_of_mem hd hmem, hc⟩

theorem scanNext_idem (i : Nat) (l : List KeyRecord) (nb : Nat) :
    scanNext i l (scanNext i l nb) = scanNext i l nb := by
  have hle : scanNext i l (scanNext i l nb) ≤ scanNext i l nb :=
    scanNext_le i l _
  rcases scanNext_mem i l (scanNext i l nb) with h | ⟨dk, hmem, hc⟩
  · exact h
  · have hge : scanNext i l nb ≤ scanNext i l (scanNext i l nb) :=
      scanNext_le_cand hmem hc nb
    omega

/-! ### Characterization of print_dnskey and the per-bundle entry loop -/

theorem pdStep_eq (kk : KaspKey) (i : Nat) (acc : List KeyRecord × Nat)
    (dk : KeyRecord) :
    pdStep kk i acc dk =
      (if printableB kk i dk then acc.1 ++ [dk] else acc.1,
        nextStep i acc.2 dk) := by
  by_cases h : printableB kk i dk <;> simp [pdStep, h]

theorem pd_foldl (kk : KaspKey) (i : Nat) :
    ∀ (l : List KeyRecord) (acc : List KeyRecord) (n : Nat),
      l.foldl (pdStep kk i) (acc, n) =
        (acc ++ l.filter (printableB kk i), scanNext i l n) := by
  intro l
  induction l with
  | nil => intro acc n; simp [scanNext_nil]
  | cons dk rest ih =>
    intro acc n
    rw [List.foldl_cons, pdStep_eq, scanNext_cons]
    by_cases h : printableB kk i dk
    · simp only [h, if_true, List.filter_cons_of_pos h, ih]
      simp
    · simp only [h, List.filter_cons_of_neg h, ih]
      simp

theorem print_dnskey_eq (kk : KaspKey) (l : List KeyRecord) (i n : Nat) :
    print_dnskey kk l i n =
      if l.filter (printableB kk i) = [] then none
      else some (l.filter (printableB kk i), scanNext i l n) := by
  unfold print_dnskey
  rw [pd_foldl]
  simp

theorem print_dnskey_none_iff (kk : KaspKey) (l : List KeyRecord) (i n : Nat) :
    print_dnskey kk l i n = none ↔
      ∀ r ∈ l, printableB kk i r = false := by
  rw [print_dnskey_eq]
  constructor
  · intro h r hr
    by_cases hp : l.filter (printableB kk i) = []
    · have := List.filter_eq_nil_iff.mp hp r hr
      simpa using this
    · simp [hp] at h
  · intro h
    have hp : l.filter (printableB kk i) = [] :=
      List.filter_eq_nil_iff.mpr (fun r hr => by simp [h r hr])
    simp [hp]

theorem print_dnskey_some (kk : KaspKey) (l : List KeyRecord) {i n : Nat}
    {recs : List KeyRecord} {nb : Nat}
    (h : print_dnskey kk l i n = some (recs, nb)) :
    recs = l.filter (printableB kk i) ∧ nb = scanNext i l n := by
  rw [print_dnskey_eq] at h
  by_cases hp : l.filter (printableB kk i) = []
  · simp [hp] at h
  · simp only [hp, if_false, Option.some.injEq, Prod.mk.injEq] at h
    exact ⟨h.1.symm, h.2.symm⟩

theorem bundleEntries_gt {keys : List KeyRecord} {i : Nat} :
    ∀ {ks : List KaspKey} {nb : Nat} {recs : List KeyRecord} {nb2 : Nat},
      i < nb → bundleEntries keys i ks nb = some (recs, nb2) → i < nb2 := by
  intro ks
  induction ks with
  | nil =>
    intro nb recs nb2 hlt h
    simp only [bundleEntries, Option.some.injEq, Prod.mk.injEq] at h
    omega
  | cons kk rest ih =>
    intro nb recs nb2 hlt h
    simp only [bundleEntries] at h
    cases h1 : print_dnskey kk keys i nb with
    | none => simp [h1] at h
    | some v =>
      obtain ⟨recs1, nb1⟩ := v
      simp only [h1] at h
      have hnb1 : nb1 = scanNext i keys nb := (print_dnskey_some kk keys h1).2
      have hlt1 : i < nb1 := by rw [hnb1]; exact scanNext_gt keys hlt
      cases h2 : bundleEntries keys i rest nb1 with
      | none => simp [h2] at h
      | some w =>
        obtain ⟨more, nb3⟩ := w
        simp only [h2, Option.some.injEq, Prod.mk.injEq] at h
        have := ih hlt1 h2
        omega

theorem bundleEntries_next {keys : List KeyRecord} {i : Nat} :
    ∀ {ks : List KaspKey} {nb : Nat} {recs : List KeyRecord} {nb2 : Nat},
      ks ≠ [] → bundleEntries keys i ks nb = some (recs, nb2) →
      nb2 = scanNext i keys nb := by
  intro ks
  induction ks with
  | nil => intro nb recs nb2 hne _; exact absurd rfl hne
  | cons kk rest ih =>
    intro nb recs nb2 _ h
    simp only [bundleEntries] at h
    cases h1 : print_dnskey kk keys i nb with
    | none => simp [h1] at h
    | some v =>
      obtain ⟨recs1, nb1⟩ := v
      simp only [h1] at h
      have hnb1 : nb1 = scanNext i keys nb := (print_dnskey_some kk keys h1).2
      cases rest with
      | nil =>
        simp only [bundleEntries, Option.some.injEq, Prod.mk.injEq] at h
        omega
      | cons kk2 rest2 =>
        cases h2 : bundleEntries keys i (kk2 :: rest2) nb1 with
        | none => simp [h2] at h
        | some w =>
          obtain ⟨more, nb3⟩ := w
          simp only [h2, Option.some.injEq, Prod.mk.injEq] at h
          have hnb3 : nb3 = scanNext i keys nb1 :=
            ih (List.cons_ne_nil kk2 rest2) h2
          rw [← h.2, hnb3, hnb1, scanNext_idem]

theorem bundleEntries_records {keys : List KeyRecord} {i : Nat} :
    ∀ {ks : List KaspKey} {nb : Nat} {recs : List KeyRecord} {nb2 : Nat},
      bundleEntries keys i ks nb = some (recs, nb2) →
      ∀ r ∈ recs, r ∈ keys ∧ ∃ kk ∈ ks, printableB kk i r = true := by
  intro ks
  induction ks with
  | nil =>
    intro nb recs nb2 h r hr
    simp only [bundleEntries, Option.some.injEq, Prod.mk.injEq] at h
    rw [← h.1] at hr
    cases hr
  | cons kk rest ih =>
    intro nb recs nb2 h r hr
    simp only [bundleEntries] at h
    cases h1 : print_dnskey kk keys i nb with
    | none => simp [h1] at h
    | some v =>
      obtain ⟨recs1, nb1⟩ := v
      simp only [h1] at h
      cases h2 : bundleEntries keys i rest nb1 with
      | none => simp [h2] at h
      | some w =>
        obtain ⟨more, nb3⟩ := w
        simp only [h2, Option.some.injEq, Prod.mk.injEq] at h
        rw [← h.1] at hr
        rcases List.mem_append.mp hr with h3 | h3
        · have hfil : recs1 = keys.filter (printableB kk i) :=
            (print_dnskey_some kk keys h1).1
          rw [hfil] at h3
          exact ⟨List.mem_of_mem_filter h3,
            kk, List.mem_cons_self kk rest, List.of_mem_filter h3⟩
        · obtain ⟨hrk, kk', hkk', hp⟩ := ih h2 r h3
          exact ⟨hrk, kk', List.mem_cons_of_mem kk hkk', hp⟩

/-! ### Request loop lemmas -/

theorem requestLoop_records (ks : List KaspKey) (keys : List KeyRecord)
    (endt : Nat) :
    ∀ (fuel i : Nat) (bs : List (Nat × List KeyRecord)),
      requestLoop ks keys endt fuel i = .bundles bs →
      ∀ p ∈ bs, ∀ r ∈ p.2, r ∈ keys ∧ ∃ kk ∈ ks, printableB kk p.1 r = true := by
  intro fuel
  induction fuel with
  | zero => intro i bs h; simp [requestLoop] at h
  | succ fuel ih =>
    intro i bs h
    simp only [requestLoop] at h
    by_cases hi : i ≤ endt
    · rw [if_pos hi] at h
      cases h1 : bundleEntries keys i ks (u32 (endt + 1)) with
      | none => simp [h1] at h
      | some v =>
        obtain ⟨recs, next⟩ := v
        simp only [h1] at h
        cases h2 : requestLoop ks keys endt fuel next with
        | bundles bs2 =>
          simp only [h2, ReqRes.bundles.injEq] at h
          subst h
          intro p hp r hr
          rcases List.mem_cons.mp hp with rfl | hp2
          · exact bundleEntries_records h1 r hr
          · exact ih next bs2 h2 p hp2 r hr
        | fatalNoKeyPair bs2 => simp [h2] at h
        | noKeysConfigured => simp [h2] at h
        | outOfFuel bs2 => simp [h2] at h
    · rw [if_neg hi] at h
      simp only [ReqRes.bundles.injEq] at h
      subst h
      intro p hp
      cases hp

theorem requestLoop_cover (ks : List KaspKey) (keys : List KeyRecord)
    (endt : Nat) (hks : ks ≠ []) (hw : endt + 1 < W) :
    ∀ (fuel i : Nat) (bs : List (Nat × List KeyRecord)),
      requestLoop ks keys endt fuel i = .bundles bs →
      ∀ t, t ∈ bs.map Prod.fst ↔
        (i ≤ endt ∧ (t = i ∨ (i < t ∧ t ≤ endt ∧ changePt keys t))) := by
  intro fuel
  induction fuel with
  | zero => intro i bs h; simp [requestLoop] at h
  | succ fuel ih =>
    intro i bs h t
    simp only [requestLoop] at h
    by_cases hi : i ≤ endt
    · rw [if_pos hi, u32_eq_of_lt hw] at h
      cases h1 : bundleEntries keys i ks (endt + 1) with
      | none => simp [h1] at h
      | some v =>
        obtain ⟨recs, next⟩ := v
        simp only [h1] at h
        cases h2 : requestLoop ks keys endt fuel next with
        | bundles bs2 =>
          simp only [h2, ReqRes.bundles.injEq] at h
          subst h
          have hnext : next = scanNext i keys (endt + 1) :=
            bundleEntries_next hks h1
          have hgt : i < next := by
            rw [hnext]; exact scanNext_gt keys (by omega)
          have hmin : ∀ u, i < u → changePt keys u → next ≤ u := by
            rintro u hu ⟨r, hrmem, hpd⟩
            have hcand : isCand i r u := by
              rcases hpd with hp | hp
              · exact Or.inl ⟨by omega, by omega, hp.symm⟩
              · exact Or.inr ⟨by omega, by omega, hp.symm⟩
            rw [hnext]
            exact scanNext_le_cand hrmem hcand (endt + 1)
          have hcp : next ≤ endt → changePt keys next := by
            intro hne
            rcases scanNext_mem i keys (endt + 1) with hm | ⟨dk, hdk, hcand⟩
            · rw [← hnext] at hm; omega
            · rw [← hnext] at hcand
              rcases hcand with ⟨_, _, he⟩ | ⟨_, _, he⟩
              · exact ⟨dk, hdk, Or.inl he.symm⟩
              · exact ⟨dk, hdk, Or.inr he.symm⟩
          have iht := ih next bs2 h2 t
          simp only [List.map_cons, List.mem_cons, iht]
          constructor
          · rintro (rfl | ⟨hnle, (rfl | ⟨h3, h4, h5⟩)⟩)
            · exact ⟨hi, Or.inl rfl⟩
            · exact ⟨hi, Or.inr ⟨hgt, hnle, hcp hnle⟩⟩
            · exact ⟨hi, Or.inr ⟨by omega, h4, h5⟩⟩
          · rintro ⟨_, (rfl | ⟨h3, h4, h5⟩)⟩
            · exact Or.inl rfl
            · have hle := hmin t h3 h5
              rcases Nat.eq_or_lt_of_le hle with heq | hlt
              · exact Or.inr ⟨by omega, Or.inl heq.symm⟩
              · exact Or.inr ⟨by omega, Or.inr ⟨hlt, h4, h5⟩⟩
        | fatalNoKeyPair bs2 => simp [h2] at h
        | noKeysConfigured => simp [h2] at h
        | outOfFuel bs2 => simp [h2] at h
    · rw [if_neg hi] at h
      simp only [ReqRes.bundles.injEq] at h
      subst h
      simp [hi]

theorem strictIncrB_cons {a : Nat} {l : List Nat}
    (hl : strictIncrB l = true) (hb : ∀ t ∈ l, a < t) :
    strictIncrB (a :: l) = true := by
  cases l with
  | nil => rfl
  | cons b rest =>
    simp only [strictIncrB, Bool.and_eq_true, decide_eq_true_eq]
    exact ⟨hb b (List.mem_cons_self b rest), hl⟩

theorem requestLoop_chain (ks : List KaspKey) (keys : List KeyRecord)
    (endt : Nat) (hw : endt + 1 < W) :
    ∀ (fuel i : Nat),
      strictIncrB
          ((reqBundles (requestLoop ks keys endt fuel i)).map Prod.fst) = true ∧
      ∀ t ∈ (reqBundles (requestLoop ks keys endt fuel i)).map Prod.fst,
        i ≤ t := by
  intro fuel
  induction fuel with
  | zero => intro i; simp [requestLoop, reqBundles, strictIncrB]
  | succ fuel ih =>
    intro i
    simp only [requestLoop]
    by_cases hi : i ≤ endt
    · rw [if_pos hi, u32_eq_of_lt hw]
      cases h1 : bundleEntries keys i ks (endt + 1) with
      | none => simp [reqBundles, strictIncrB]
      | some v =>
        obtain ⟨recs, next⟩ := v
        have hgt : i < next := bundleEntries_gt (by omega) h1
        obtain ⟨ihc, ihb⟩ := ih next
        cases h2 : requestLoop ks keys endt fuel next with
        | bundles bs2 =>
          rw [h2] at ihc ihb
          simp only [reqBundles] at ihc ihb
          simp only [h2, reqBundles, List.map_cons]
          refine ⟨strictIncrB_cons ihc ?_, ?_⟩
          · intro t ht; have := ihb t ht; omega
          · intro t ht
            rcases List.mem_cons.mp ht with rfl | ht2
            · exact Nat.le_refl t
            · have := ihb t ht2; omega
        | fatalNoKeyPair bs2 =>
          rw [h2] at ihc ihb
          simp only [reqBundles] at ihc ihb
          simp only [h2, reqBundles, List.map_cons]
          refine ⟨strictIncrB_cons ihc ?_, ?_⟩
          · intro t ht; have := ihb t ht; omega
          · intro t ht
            rcases List.mem_cons.mp ht with rfl | ht2
            · exact Nat.le_refl t
            · have := ihb t ht2; omega
        | outOfFuel bs2 =>
          rw [h2] at ihc ihb
          simp only [reqBundles] at ihc ihb
          simp only [h2, reqBundles, List.map_cons]
          refine ⟨strictIncrB_cons ihc ?_, ?_⟩
          · intro t ht; have := ihb t ht; omega
          · intro t ht
            rcases List.mem_cons.mp ht with rfl | ht2
            · exact Nat.le_refl t
            · have := ihb t ht2; omega
        | noKeysConfigured => simp [h2, reqBundles, strictIncrB]
    · rw [if_neg hi]
      simp [reqBundles, strictIncrB]

theorem requestLoop_term (ks : List KaspKey) (keys : List KeyRecord)
    (endt : Nat) (hw : endt + 1 < W) :
    ∀ (fuel i : Nat), i ≤ endt → endt + 2 - i ≤ fuel →
      isOutOfFuel (requestLoop ks keys endt fuel i) = false := by
  intro fuel
  induction fuel with
  | zero => intro i hi hf; omega
  | succ fuel ih =>
    intro i hi hf
    simp only [requestLoop]
    rw [if_pos hi, u32_eq_of_lt hw]
    cases h1 : bundleEntries keys i ks (endt + 1) with
    | none => simp [isOutOfFuel]
    | some v =>
      obtain ⟨recs, next⟩ := v
      have hgt : i < next := bundleEntries_gt (by omega) h1
      by_cases hn : next ≤ endt
      · have hrec := ih next hn (by omega)
        cases h2 : requestLoop ks keys endt fuel next with
        | bundles bs2 => simp [h2, isOutOfFuel]
        | fatalNoKeyPair bs2 => simp [h2, isOutOfFuel]
        | noKeysConfigured => simp [h2, isOutOfFuel]
        | outOfFuel bs2 => rw [h2] at hrec; simp [isOutOfFuel] at hrec
      · cases fuel with
        | zero => omega
        | succ fuel2 =>
          have h2 : requestLoop ks keys endt (fuel2 + 1) next = .bundles [] := by
            simp only [requestLoop]
            rw [if_neg (by omega : ¬ next ≤ endt)]
          simp [h2, isOutOfFuel]

/-! ### Keygen-side lemmas -/

theorem findEligible_of_exists {kk : KaspKey} {i : Nat} :
    ∀ {l : List KeyRecord} {dk : KeyRecord}, dk ∈ l →
      dns_kasp_key_match kk dk = true → dk.activate ≤ i →
      (dk.inactive = 0 ∨ i < dk.inactive) →
      ∃ dk', findEligible kk i l = some dk' ∧ dk' ∈ l ∧
        dns_kasp_key_match kk dk' = true ∧ dk'.activate ≤ i ∧
        (dk'.inactive = 0 ∨ i < dk'.inactive) := by
  intro l
  induction l with
  | nil => intro dk h; cases h
  | cons hd tl ih =>
    intro dk hmem hm ha hi
    by_cases hc : dns_kasp_key_match kk hd = true ∧ hd.activate ≤ i ∧
        (hd.inactive = 0 ∨ i < hd.inactive)
    · refine ⟨hd, ?_, List.mem_cons_self hd tl, hc.1, hc.2.1, hc.2.2⟩
      simp only [findEligible]
      rw [if_pos hc]
    · rcases List.mem_cons.mp hmem with rfl | htl
      · exact absurd ⟨hm, ha, hi⟩ hc
      · obtain ⟨dk', he, hmem', hprops⟩ := ih htl hm ha hi
        refine ⟨dk', ?_, List.mem_cons_of_mem hd hmem', hprops⟩
        simp only [findEligible]
        rw [if_neg hc]
        exact he

theorem create_zsk_generated {supported fips : Bool} {minRsa : Nat}
    {c : KsrCtx} {kk : KaspKey} {keys : List KeyRecord} {tag i a : Nat}
    {r : KeyRecord} {exp : Nat}
    (h : create_zsk supported fips minRsa c kk keys tag i a = .generated r exp) :
    r = stampTimes c tag a ∧
      exp = (if 0 < c.lifetime then u32 (a + c.lifetime) else 0) := by
  unfold create_zsk at h
  cases hc : checkAlg supported fips minRsa c.alg c.size with
  | fatalUnsupported => simp [hc] at h
  | fatalSize => simp [hc] at h
  | ok sz =>
    simp only [hc] at h
    cases hf : findEligible kk i keys with
    | some dk => simp [hf] at h
    | none =>
      simp only [hf, CreateResult.generated.injEq] at h
      exact ⟨h.1.symm, h.2.symm⟩

theorem zskWalk_done {supported fips : Bool} {minRsa : Nat} {c : KsrCtx}
    {kk : KaspKey} {keys : List KeyRecord} {tagOf : Nat → Nat}
    {fuel i a idx : Nat} (h : c.endt ≤ i) :
    zskWalk supported fips minRsa c kk keys tagOf (fuel + 1) i a idx = .ok [] := by
  simp only [zskWalk]
  rw [if_neg (by omega : ¬ i < c.endt)]

theorem keygenEntries_allKsk {supported fips : Bool} {minRsa fuel : Nat}
    {c0 : KsrCtx} {keys : List KeyRecord} {tagOf : Nat → Nat} :
    ∀ {es : List KaspKey}, (∀ kk ∈ es, kk.ksk = true) →
      keygenEntries supported fips minRsa fuel c0 keys tagOf es true =
        .noZsks [] := by
  intro es
  induction es with
  | nil => intro _; rfl
  | cons hd tl ih =>
    intro h
    have hhd : hd.ksk = true := h hd (List.mem_cons_self hd tl)
    simp only [keygenEntries, hhd, if_true]
    exact ih (fun kk hk => h kk (List.mem_cons_of_mem hd hk))

theorem keygenEntries_window_empty {supported fips : Bool} {minRsa fuel : Nat}
    {c0 : KsrCtx} {keys : List KeyRecord} {tagOf : Nat → Nat}
    (hf : 0 < fuel) (hse : c0.endt ≤ c0.start) :
    ∀ (es : List KaspKey) (noop : Bool),
      (noop = false ∨ ∃ kk ∈ es, kk.ksk = false) →
      keygenEntries supported fips minRsa fuel c0 keys tagOf es noop =
        .ok [] := by
  intro es
  induction es with
  | nil =>
    intro noop h
    rcases h with rfl | ⟨kk, hk, _⟩
    · rfl
    · cases hk
  | cons hd tl ih =>
    intro noop h
    by_cases hk : hd.ksk = true
    · have h' : noop = false ∨ ∃ kk ∈ tl, kk.ksk = false := by
        rcases h with rfl | ⟨kk, hmem, hkk⟩
        · exact Or.inl rfl
        · rcases List.mem_cons.mp hmem with rfl | htl
          · rw [hk] at hkk; cases hkk
          · exact Or.inr ⟨kk, htl, hkk⟩
      simp only [keygenEntries, hk, if_true]
      exact ih noop h'
    · obtain ⟨fuel2, rfl⟩ : ∃ f2, fuel = f2 + 1 := ⟨fuel - 1, by omega⟩
      have hwalk : zskWalk supported fips minRsa (setentry c0 hd) hd keys tagOf
          (fuel2 + 1) c0.start c0.start 0 = .ok [] :=
        zskWalk_done hse
      have hkb : hd.ksk = false := by
        cases hksk : hd.ksk
        · rfl
        · exact absurd hksk hk
      simp only [keygenEntries, hkb, hwalk]
      rw [ih false (Or.inl rfl)]
      rfl

theorem create_zsk_ok_shape {supported fips : Bool} {minRsa : Nat}
    {c : KsrCtx} {kk : KaspKey} {keys : List KeyRecord} {tag i a sz : Nat}
    (hok : checkAlg supported fips minRsa c.alg c.size = .ok sz) :
    create_zsk supported fips minRsa c kk keys tag i a =
      (match findEligible kk i keys with
       | some dk => .reused dk dk.inactive
       | none => .generated (stampTimes c tag a)
           (if 0 < c.lifetime then u32 (a + c.lifetime) else 0)) := by
  unfold create_zsk
  rw [hok]

/-! ### Claim C1 -/

/-- Claim C1, corrected.  The emitter's per-record filter in
`print_dnskey` is `publish ≤ t` and (`delete` unset or `t < delete`) —
not the section 4.2 predicate on `activate`/`inactive` that the claim
states.  First conjunct: in every completed `request` run, every record
emitted in the bundle at inception `t` comes from the inventory and
passes that publish/delete filter for some policy entry.  Second
conjunct: `print_dnskey` raises the fatal "no key pair found" error
exactly when no inventory record passes the filter for the entry. -/
theorem ksr_c1_emitted_records_printable :
    (∀ (fuel : Nat) (k : Kasp) (keys : List KeyRecord) (start endt : Nat)
        (bs : List (Nat × List KeyRecord)),
      request fuel k keys start endt = .bundles bs →
      ∀ p ∈ bs, ∀ r ∈ p.2,
        r ∈ keys ∧ ∃ kk ∈ k.keys, printableB kk p.1 r = true) ∧
    (∀ (kk : KaspKey) (keys : List KeyRecord) (i n : Nat),
      print_dnskey kk keys i n = none ↔
        ∀ r ∈ keys, printableB kk i r = false) := by
  constructor
  · intro fuel k keys start endt bs h p hp r hr
    unfold request at h
    by_cases hk : k.keys = []
    · simp [hk] at h
    · rw [if_neg hk] at h
      exact requestLoop_records k.keys keys endt fuel start bs h p hp r hr
  · exact print_dnskey_none_iff

/-- Claim C1 counterexample: at inception 30 the single bundle of this
run emits the record `rAct70` whose activate time 70 is after the
bundle inception, violating the section 4.2 eligibility predicate the
claim states; the record qualifies because its publish time 20 has
passed. -/
theorem ksr_c1_counterexample :
    request 3 s1kasp [rAct70] 30 30 = .bundles [(30, [rAct70])] ∧
      ¬ rAct70.activate ≤ 30 := by
  decide

/-- Claim C1 witness: a concrete completed run and a concrete fatal
instance of the corrected statement. -/
theorem ksr_c1_witness :
    (rPub0 ∈ [rPub0] ∧ ∃ kk ∈ s1kasp.keys, printableB kk 10 rPub0 = true) ∧
    (print_dnskey czsk [rAct70] 10 11 = none ↔
      ∀ r ∈ [rAct70], printableB czsk 10 r = false) :=
  ⟨ksr_c1_emitted_records_printable.1 3 s1kasp [rPub0] 10 10 [(10, [rPub0])]
      (by decide) (10, [rPub0]) (by decide) rPub0 (by decide),
    ksr_c1_emitted_records_printable.2 czsk [rAct70] 10 11⟩

/-! ### Claim C2 -/

/-- Claim C2, corrected.  The next-bundle scan at lines 479-485 of
`print_dnskey` runs before the `dns_kasp_key_match` check, so every
inventory record — matching a policy entry or not — contributes its
publish and delete instants as change points.  With that correction:
in a completed run over a nonempty policy with `start ≤ end` (and no
32-bit wraparound of `end + 1`), a bundle is emitted at `t` iff
`t = start`, or `start < t ≤ end` and some inventory record has
`publish = t` or `delete = t`. -/
theorem ksr_c2_bundle_instants (fuel : Nat) (k : Kasp)
    (keys : List KeyRecord) (start endt : Nat)
    (bs : List (Nat × List KeyRecord))
    (hks : k.keys ≠ []) (hw : endt + 1 < W) (hse : start ≤ endt)
    (hr : request fuel k keys start endt = .bundles bs) (t : Nat) :
    t ∈ bs.map Prod.fst ↔
      (t = start ∨ (start < t ∧ t ≤ endt ∧ changePt keys t)) := by
  unfold request at hr
  rw [if_neg hks] at hr
  rw [requestLoop_cover k.keys keys endt hks hw fuel start bs hr t]
  constructor
  · rintro ⟨_, h⟩; exact h
  · intro h; exact ⟨hse, h⟩

/-- Claim C2 counterexample: the record `rOther` matches no entry of
the policy (its algorithm differs), yet its publish instant 50 becomes
a bundle inception; no key matching a policy entry has publish or
delete equal to 50, refuting the claim's "some key matching a policy
entry". -/
theorem ksr_c2_counterexample :
    request 5 s1kasp [rPub0, rOther] 10 100 =
      .bundles [(10, [rPub0]), (50, [rPub0])] ∧
    ¬ ∃ kk ∈ s1kasp.keys, ∃ r ∈ [rPub0, rOther],
        dns_kasp_key_match kk r = true ∧ (r.publish = 50 ∨ r.delete = 50) := by
  decide

/-- Claim C2 witness: the corrected iff evaluated at the bundle
instant 50 of the concrete run. -/
theorem ksr_c2_witness :
    (50 ∈ ([(10, [rPub0]), (50, [rPub0])] :
        List (Nat × List KeyRecord)).map Prod.fst ↔
      (50 = 10 ∨ (10 < 50 ∧ 50 ≤ 100 ∧ changePt [rPub0, rOther] 50))) :=
  ksr_c2_bundle_instants 5 s1kasp [rPub0, rOther] 10 100
    [(10, [rPub0]), (50, [rPub0])] (by decide) (by decide) (by decide)
    (by decide) 50

/-! ### Claim C4 -/

/-- Claim C4, corrected.  The sentinel `end + 1` is computed in
unsigned 32-bit arithmetic, so for `end = 2^32 - 1` it wraps to 0 and
the loop need not terminate.  For every `end` below `2^32 - 1` the
claim's argument holds: the next inception starts at the sentinel
`end + 1` and is only lowered to publish or delete instants strictly
above the current inception, so the emitted inceptions strictly
increase and a budget of `end + 2 - start` iterations always suffices. -/
theorem ksr_c4_termination (fuel : Nat) (k : Kasp) (keys : List KeyRecord)
    (start endt : Nat) (hks : k.keys ≠ []) (hse : start ≤ endt)
    (hw : endt + 1 < W) :
    isOutOfFuel (request (endt + 2 - start) k keys start endt) = false ∧
    strictIncrB
      ((reqBundles (request fuel k keys start endt)).map Prod.fst) = true := by
  constructor
  · unfold request
    rw [if_neg hks]
    exact requestLoop_term k.keys keys endt hw (endt + 2 - start) start hse
      (Nat.le_refl _)
  · unfold request
    rw [if_neg hks]
    exact (requestLoop_chain k.keys keys endt hw fuel start).1

/-- Claim C4 counterexample: with the unsigned 32-bit `start = end =
2^32 - 1`, the sentinel `end + 1` wraps to 0, the second bundle is
emitted at inception 0 < 2^32 - 1, and from then on every iteration
recomputes inception 0 — the inception sequence is not strictly
increasing and the loop never exits (any iteration budget is
exhausted). -/
theorem ksr_c4_counterexample :
    request 3 s1kasp [rPub0] 4294967295 4294967295 =
      .outOfFuel [(4294967295, [rPub0]), (0, [rPub0]), (0, [rPub0])] ∧
    strictIncrB [4294967295, 0, 0] = false := by
  decide

/-- Claim C4 witness: the corrected termination and monotonicity facts
at a concrete run. -/
theorem ksr_c4_witness :
    isOutOfFuel (request (6 + 2 - 5) s1kasp [rPub0] 5 6) = false ∧
    strictIncrB
      ((reqBundles (request 10 s1kasp [rPub0] 5 6)).map Prod.fst) = true :=
  ksr_c4_termination 10 s1kasp [rPub0] 5 6 (by decide) (by decide) (by decide)

/-! ### Claim C3 -/

/-- Claim C3, corrected.  Over the inventory the S1 `keygen` run
actually leaves behind (four keys: the walk also covers the inception
2024-03-31, still below the 2024-04-01 end), the S2 `request` run
emits bundles exactly at the publish and delete change points
`start`, `a_k - prepub` and `a_k + L + retire` inside the window —
not at the activation instants 2024-01-31 and 2024-03-01 the claim
lists — and each prepublication bundle carries two DNSKEY records,
the others one. -/
theorem ksr_c3_s2_bundles :
    s1run = .ok [.newKey s2k0, .newKey s2k1, .newKey s2k2, .newKey s2k3] ∧
    s2run = .bundles s2expected ∧
    s2expected.map Prod.fst =
      [1704067200, 1706648400, 1706709600, 1709240400, 1709301600,
       1711832400, 1711893600] ∧
    (s2expected.map fun p => p.2.length) = [1, 2, 1, 2, 1, 2, 1] := by
  decide

/-- Claim C3 counterexample: the S2 run emits no bundle at the instant
2024-01-31T00:00:00Z (1706659200) the claim lists, and its second
bundle (at 2024-01-31 minus prepub) contains two DNSKEY records, not
one. -/
theorem ksr_c3_counterexample :
    s2run = .bundles s2expected ∧
    1706659200 ∉ s2expected.map Prod.fst ∧
    (s2expected.map fun p => p.2.length) ≠
      [1, 1, 1, 1, 1, 1, 1] := by
  decide

/-! ### Claim C5 -/

/-- Claim C5, confirmed.  Every key newly generated by the planner
(`create_zsk` returning through the generation path) is stamped with
`created = now`, `publish = active - prepub`, `activate = active`,
and, when the entry lifetime is positive, `inactive = active + L` and
`delete = inactive + retire`, else inactive and delete unset, with
`prepub = dnskey_ttl + publish_safety + propagation` and
`retire = max_zone_ttl + propagation + retire_safety + sign_delay`
taken from the policy through `setcontext`.  The hypotheses rule out
32-bit underflow of `active - prepub` and overflow of the delete
time, within which the unsigned arithmetic agrees with the claim. -/
theorem ksr_c5_new_key_timing (k : Kasp) (kk : KaspKey)
    (keys : List KeyRecord) (supported fips : Bool) (minRsa : Nat)
    (now start endt tag i a : Nat) (r : KeyRecord) (exp : Nat)
    (hgen : create_zsk supported fips minRsa
        (setentry (setcontext k now start endt) kk) kk keys tag i a =
      .generated r exp)
    (hpre : prepubD k ≤ a) (haW : a < W)
    (hsum : a + kk.lifetime + retireD k < W) :
    r.created = now ∧ r.publish = a - prepubD k ∧ r.activate = a ∧
    (0 < kk.lifetime →
      r.inactive = a + kk.lifetime ∧
      r.delete = a + kk.lifetime + retireD k) ∧
    (kk.lifetime = 0 → r.inactive = 0 ∧ r.delete = 0) := by
  obtain ⟨hr, -⟩ := create_zsk_generated hgen
  subst hr
  refine ⟨rfl, ?_, rfl, ?_, ?_⟩
  · show u32sub a (u32 (prepubD k)) = a - prepubD k
    rw [u32_eq_of_lt (lt_of_le_of_lt hpre haW)]
    exact u32sub_eq hpre haW
  · intro hL
    constructor
    · show (if 0 < kk.lifetime then u32 (a + kk.lifetime) else 0) =
        a + kk.lifetime
      rw [if_pos hL]
      exact u32_eq_of_lt (by omega)
    · show (if 0 < kk.lifetime then
          u32add (u32 (a + kk.lifetime)) (u32 (retireD k)) else 0) =
        a + kk.lifetime + retireD k
      rw [if_pos hL, u32_eq_of_lt (show a + kk.lifetime < W by omega),
        u32_eq_of_lt (show retireD k < W by omega)]
      exact u32add_eq (by omega)
  · intro hL
    constructor
    · show (if 0 < kk.lifetime then u32 (a + kk.lifetime) else 0) = 0
      rw [if_neg (by omega)]
    · show (if 0 < kk.lifetime then
          u32add (u32 (a + kk.lifetime)) (u32 (retireD k)) else 0) = 0
      rw [if_neg (by omega)]

/-- Claim C5 witness: the stamped metadata of a concretely generated
key under `wkasp` (prepub 3, retire 5) at now 7, active 100. -/
theorem ksr_c5_witness :
    w5rec.created = 7 ∧ w5rec.publish = 100 - prepubD wkasp ∧
    w5rec.activate = 100 ∧
    (0 < wzsk10.lifetime →
      w5rec.inactive = 100 + wzsk10.lifetime ∧
      w5rec.delete = 100 + wzsk10.lifetime + retireD wkasp) ∧
    (wzsk10.lifetime = 0 → w5rec.inactive = 0 ∧ w5rec.delete = 0) :=
  ksr_c5_new_key_timing wkasp wzsk10 [] true false 1024 7 0 1000 3 50 100
    w5rec 110 (by decide) (by decide) (by decide) (by decide)

/-! ### Claim C6 -/

/-- Claim C6, corrected.  The per-entry walk runs only while
`inception < end`, so a run with `start ≥ end` produces zero
generations even for a lifetime-0 entry (claim C10); with the added
hypothesis `start < end`, a ZSK entry with lifetime 0 produces exactly
one generation — the walk calls `create_zsk` once (reusing or
generating exactly one key, hence one filename) and then breaks. -/
theorem ksr_c6_one_generation (k : Kasp) (kk : KaspKey)
    (keys : List KeyRecord) (tagOf : Nat → Nat) (supported fips : Bool)
    (minRsa : Nat) (now start endt fuel a idx sz : Nat)
    (hL : kk.lifetime = 0) (hlt : start < endt)
    (hok : checkAlg supported fips minRsa kk.alg kk.size = .ok sz) :
    ∃ g, zskWalk supported fips minRsa
        (setentry (setcontext k now start endt) kk) kk keys tagOf
        (fuel + 1) start a idx = .ok [g] := by
  simp only [zskWalk]
  rw [if_pos (show start < (setentry (setcontext k now start endt) kk).endt
    from hlt)]
  rw [create_zsk_ok_shape (c := setentry (setcontext k now start endt) kk) hok]
  cases hf : findEligible kk start keys with
  | some dk =>
    simp only [hf]
    rw [if_pos (show (setentry (setcontext k now start endt) kk).lifetime = 0
      from hL)]
    exact ⟨.reusedKey dk, rfl⟩
  | none =>
    simp only [hf]
    rw [if_pos (show (setentry (setcontext k now start endt) kk).lifetime = 0
      from hL)]
    exact ⟨.newKey (stampTimes (setentry (setcontext k now start endt) kk)
      (tagOf idx) a), rfl⟩

/-- Claim C6 counterexample: a `keygen` run whose only entry is a
ZSK with lifetime 0, with `start = end`: the walk body never runs, so
the run succeeds with zero keys and zero filenames for that entry,
refuting "exactly one generation ... rather than zero or many". -/
theorem ksr_c6_counterexample :
    keygen true false 1024 5 c6kasp [] (fun n => n) 0 100 100 = .ok [] := by
  decide

/-- Claim C6 witness: one generation at a concrete lifetime-0 entry
with `start < end`. -/
theorem ksr_c6_witness :
    ∃ g, zskWalk true false 1024
        (setentry (setcontext c6kasp 0 100 200) czsk0) czsk0 []
        (fun n => n) 1 100 100 0 = .ok [g] :=
  ksr_c6_one_generation c6kasp czsk0 [] (fun n => n) true false 1024
    0 100 200 0 100 0 256 (by decide) (by decide) (by decide)

/-! ### Claim C7 -/

/-- Claim C7, confirmed.  Whenever the inventory holds a record
matching the entry that is eligible at the inception
(`activate ≤ inception`, and `inactive` unset or
`inception < inactive`), `create_zsk` returns through the reuse path
with such a record (the first eligible one in inventory order): the
`reused` result is the early-exit before the generation loop, so no
key is generated or persisted, and the `*expiration` output — which
the `keygen` walk passes as the next generation's active instant — is
the record's inactive time, 0 (open) when unset. -/
theorem ksr_c7_reuse (supported fips : Bool) (minRsa : Nat) (c : KsrCtx)
    (kk : KaspKey) (keys : List KeyRecord) (tag i a sz : Nat)
    (dk : KeyRecord)
    (hok : checkAlg supported fips minRsa c.alg c.size = .ok sz)
    (hdk : dk ∈ keys) (hm : dns_kasp_key_match kk dk = true)
    (ha : dk.activate ≤ i) (hin : dk.inactive = 0 ∨ i < dk.inactive) :
    ∃ dk', dk' ∈ keys ∧ dns_kasp_key_match kk dk' = true ∧
      dk'.activate ≤ i ∧ (dk'.inactive = 0 ∨ i < dk'.inactive) ∧
      create_zsk supported fips minRsa c kk keys tag i a =
        .reused dk' dk'.inactive := by
  obtain ⟨dk', he, hmem, hm', ha', hin'⟩ := findEligible_of_exists hdk hm ha hin
  refine ⟨dk', hmem, hm', ha', hin', ?_⟩
  rw [create_zsk_ok_shape hok, he]

/-- Claim C7 witness: reuse of a concrete eligible record at
inception 50. -/
theorem ksr_c7_witness :
    ∃ dk', dk' ∈ [w7rec] ∧ dns_kasp_key_match wzsk10 dk' = true ∧
      dk'.activate ≤ 50 ∧ (dk'.inactive = 0 ∨ 50 < dk'.inactive) ∧
      create_zsk true false 1024 (setentry (setcontext wkasp 7 0 1000) wzsk10)
        wzsk10 [w7rec] 3 50 100 = .reused dk' dk'.inactive :=
  ksr_c7_reuse true false 1024 (setentry (setcontext wkasp 7 0 1000) wzsk10)
    wzsk10 [w7rec] 3 50 100 256 w7rec (by decide) (by decide) (by decide)
    (by decide) (by decide)

/-! ### Claim C8 -/

/-- Claim C8, corrected.  The size check at lines 282-285 only fires
for a nonzero policy size (`size = 0` means "algorithm default" and is
accepted), so the claim's "a size outside [min_rsa, 4096] is a fatal
error" fails at size 0.  With that correction: `min_rsa` is 1024, or
2048 when FIPS is active at startup; for an RSA variant a nonzero size
outside `[min_rsa, MAX_RSA]` makes `create_zsk` fail with the
size-range fatal before any key is generated, and an RSASHA1 variant
under FIPS makes it fail with the "unsupported algorithm" fatal before
any key is generated (both results are the pre-generation fatal
constructors, which carry no key). -/
theorem ksr_c8_validation (supported fips : Bool) (minRsa : Nat)
    (c : KsrCtx) (kk : KaspKey) (keys : List KeyRecord) (tag i a : Nat) :
    (min_rsa true = 2048 ∧ min_rsa false = 1024) ∧
    (isRsa c.alg = true → ¬ ((c.alg = 5 ∨ c.alg = 7) ∧ fips = true) →
      c.size ≠ 0 → (c.size < minRsa ∨ MAX_RSA < c.size) →
      create_zsk true fips minRsa c kk keys tag i a = .fatalSize) ∧
    ((c.alg = 5 ∨ c.alg = 7) →
      create_zsk supported true minRsa c kk keys tag i a =
        .fatalUnsupported) := by
  refine ⟨⟨rfl, rfl⟩, ?_, ?_⟩
  · intro hrsa hnf hsz hrange
    unfold create_zsk
    have hchk : checkAlg true fips minRsa c.alg c.size = .fatalSize := by
      unfold checkAlg
      rw [if_neg (by decide : ¬ (true : Bool) = false), if_neg hnf,
        if_pos ⟨hrsa, hsz, hrange⟩]
    rw [hchk]
  · intro h57
    unfold create_zsk
    have hchk : checkAlg supported true minRsa c.alg c.size =
        .fatalUnsupported := by
      unfold checkAlg
      by_cases hs : supported = false
      · rw [if_pos hs]
      · rw [if_neg hs, if_pos ⟨h57, rfl⟩]
    rw [hchk]

/-- Claim C8 counterexample: an RSASHA256 entry with policy size 0 —
outside `[1024, 4096]` — is not rejected: `create_zsk` proceeds to the
generation path. -/
theorem ksr_c8_counterexample :
    create_zsk true false 1024 c8ctx rsaZsk [] 7 0 0 =
      .generated (stampTimes c8ctx 7 0) 0 ∧
    ¬ (1024 ≤ c8ctx.size ∧ c8ctx.size ≤ 4096) := by
  decide

/-- Claim C8 witness: size 1024 rejected under the FIPS minimum 2048,
and RSASHA1 rejected under FIPS. -/
theorem ksr_c8_witness :
    create_zsk true false 2048 c8ctx1024 rsa1024 [] 0 0 0 = .fatalSize ∧
    create_zsk true true 1024 c8ctxSha1 rsaSha1 [] 0 0 0 =
      .fatalUnsupported :=
  ⟨(ksr_c8_validation true false 2048 c8ctx1024 rsa1024 [] 0 0 0).2.1
      (by decide) (by decide) (by decide) (by decide),
    (ksr_c8_validation true true 1024 c8ctxSha1 rsaSha1 [] 0 0 0).2.2
      (by decide)⟩

/-! ### Claim C9 -/

/-- Claim C9, confirmed.  Over a nonempty policy in which every entry
has `is_ksk = true`, the `keygen` entry loop skips every entry (KSK
entries are never scheduled), `noop` stays true, and the run ends in
the "policy has no zsks" configuration fatal having emitted no
filenames (the result carries the empty output list). -/
theorem ksr_c9_no_zsks (supported fips : Bool) (minRsa fuel : Nat)
    (k : Kasp) (keys : List KeyRecord) (tagOf : Nat → Nat)
    (now start endt : Nat)
    (hne : k.keys ≠ []) (hall : ∀ kk ∈ k.keys, kk.ksk = true) :
    keygen supported fips minRsa fuel k keys tagOf now start endt =
      .noZsks [] := by
  unfold keygen
  rw [if_neg hne]
  exact keygenEntries_allKsk hall

/-- Claim C9 witness: the single-CSK policy. -/
theorem ksr_c9_witness :
    keygen true false 1024 5 cskKasp [] (fun n => n) 0 0 100 =
      .noZsks [] :=
  ksr_c9_no_zsks true false 1024 5 cskKasp [] (fun n => n) 0 0 100
    (by decide) (by decide)

/-! ### Claim C10 -/

/-- Claim C10, confirmed.  With `start ≥ end` the per-entry walk
condition `inception < end` is false at once, so for a policy with at
least one non-KSK entry the run creates and reuses nothing, prints no
filename, and exits successfully (`noop` is cleared by the non-KSK
entry, so the "no zsks" fatal is not reached) — also when that entry's
lifetime is 0. -/
theorem ksr_c10_empty_window (supported fips : Bool) (minRsa fuel : Nat)
    (k : Kasp) (keys : List KeyRecord) (tagOf : Nat → Nat)
    (now start endt : Nat)
    (hf : 0 < fuel) (hse : endt ≤ start)
    (hz : ∃ kk ∈ k.keys, kk.ksk = false) :
    keygen supported fips minRsa fuel k keys tagOf now start endt =
      .ok [] := by
  unfold keygen
  have hne : k.keys ≠ [] := by
    intro hnil
    rw [hnil] at hz
    obtain ⟨kk, hk, -⟩ := hz
    cases hk
  rw [if_neg hne]
  exact keygenEntries_window_empty hf hse k.keys true (Or.inr hz)

/-- Claim C10 witness: a run over the S1 policy with `start > end`. -/
theorem ksr_c10_witness :
    keygen true false 1024 3 s1kasp [] (fun n => n) 0 50 30 = .ok [] :=
  ksr_c10_empty_window true false 1024 3 s1kasp [] (fun n => n) 0 50 30
    (by decide) (by decide) (by decide)

end DnssecKsr
